import Mathlib

/-!
Shallow embedding of the credential and session security core of the vms
repository (src/src/security/SecurityManager.cpp and SecurityManager.h),
together with proofs of the specified properties.

Modelling conventions:
* `QString` is modelled as `String`; the empty string plays the role of a
  null `QString` exactly where the source uses emptiness as a sentinel.
* `QDateTime` is modelled as `Nat` (seconds); an invalid `QDateTime` (the
  default-constructed one used for a cleared `lockoutUntil`) is `Option.none`.
* `QHash` tables (the session registry, the user cache/store) are modelled as
  association lists; `QHash::insert` replaces the value at an existing key and
  `QHash::remove` deletes every entry with the key.
* The database-backed user store and the in-memory cache of
  `getUserByUsername`/`saveUser` always agree in the source (every save writes
  both), so they are modelled as one association list keyed by username.
* External cryptographic primitives (OpenSSL PBKDF2, the AES-256 block
  cipher) are not code of this repository; they enter the model as function
  parameters (`kdf`, `enc`, `dec`), and theorems assume only the properties
  the source relies on (e.g. that decryption inverts encryption blockwise).
* Entropy sources (`RAND_bytes`) are modelled by passing the generated values
  (fresh salt, fresh IV, fresh session id) explicitly as environment fields.
-/

namespace VMS

/-! ## Byte lists and base64 (QByteArray::toBase64 / fromBase64) -/

/-- One character of the standard base64 alphabet, as a byte.
Index 0..25 map to the codes of A..Z, 26..51 to a..z, 52..61 to 0..9,
62 to the plus sign and 63 to the slash. -/
def b64char (n : Nat) : Nat :=
  if n < 26 then 65 + n
  else if n < 52 then 97 + (n - 26)
  else if n < 62 then 48 + (n - 52)
  else if n = 62 then 43
  else 47

/-- Inverse alphabet lookup; `none` for bytes outside the base64 alphabet
(such as the padding byte 61, the equals sign), which `QByteArray::fromBase64`
skips in its default lenient mode. -/
def b64index (c : Nat) : Option Nat :=
  if 65 ≤ c ∧ c ≤ 90 then some (c - 65)
  else if 97 ≤ c ∧ c ≤ 122 then some (c - 97 + 26)
  else if 48 ≤ c ∧ c ≤ 57 then some (c - 48 + 52)
  else if c = 43 then some 62
  else if c = 47 then some 63
  else none

/-- Base64 encoding of a byte list (`QByteArray::toBase64`): groups of three
bytes become four alphabet bytes; a final group of two or one byte is encoded
with one or two padding bytes 61. -/
def base64encode : List Nat → List Nat
  | a :: b :: c :: rest =>
      b64char (a / 4) :: b64char (a % 4 * 16 + b / 16) ::
      b64char (b % 16 * 4 + c / 64) :: b64char (c % 64) :: base64encode rest
  | [a, b] => [b64char (a / 4), b64char (a % 4 * 16 + b / 16), b64char (b % 16 * 4), 61]
  | [a] => [b64char (a / 4), b64char (a % 4 * 16), 61, 61]
  | [] => []

/-- Reassembles bytes from a stream of six-bit values: four sextets give three
bytes; a trailing group of three sextets gives two bytes, of two gives one. -/
def decodeSextets : List Nat → List Nat
  | s1 :: s2 :: s3 :: s4 :: rest =>
      (s1 * 4 + s2 / 16) :: (s2 % 16 * 16 + s3 / 4) :: (s3 % 4 * 64 + s4) ::
      decodeSextets rest
  | [s1, s2, s3] => [s1 * 4 + s2 / 16, s2 % 16 * 16 + s3 / 4]
  | [s1, s2] => [s1 * 4 + s2 / 16]
  | _ => []

/-- Base64 decoding (`QByteArray::fromBase64`, default lenient mode): bytes
outside the alphabet, including padding, are skipped, then sextets are
reassembled into bytes. -/
def base64decode (cs : List Nat) : List Nat :=
  decodeSextets (cs.filterMap b64index)

/-! ## Symmetric cipher (encrypt / decrypt, AES-256-CBC with PKCS7 padding)

The OpenSSL EVP layer pads the plaintext to a block multiple (PKCS7), chains
16-byte blocks in CBC mode around the AES-256 block primitive, and on
decryption verifies and strips the padding.  The AES block permutation itself
is external; it appears as the parameters `enc`/`dec` (a keyed block function
`String → List Nat → List Nat`). -/

/-- PKCS7 padding as applied by `EVP_EncryptUpdate`/`EVP_EncryptFinal_ex` for
a 16-byte block cipher: always appends between 1 and 16 bytes, each equal to
the number of bytes appended. -/
def pkcs7pad (bs : List Nat) : List Nat :=
  bs ++ List.replicate (16 - bs.length % 16) (16 - bs.length % 16)

/-- PKCS7 padding check and strip as performed by `EVP_DecryptFinal_ex`:
the last byte names the pad length, which must be between 1 and 16, fit in
the data, and every pad byte must equal it; otherwise the call fails. -/
def pkcs7unpad (bs : List Nat) : Option (List Nat) :=
  match bs.getLast? with
  | none => none
  | some p =>
      if 1 ≤ p ∧ p ≤ 16 ∧ p ≤ bs.length ∧
          bs.drop (bs.length - p) = List.replicate p p then
        some (bs.take (bs.length - p))
      else none

/-- Bytewise xor of two equally long byte lists. -/
def xorBytes (a b : List Nat) : List Nat := List.zipWith Nat.xor a b

/-- Splits a byte list into consecutive 16-byte blocks (the last block may be
shorter when the length is not a multiple of 16). -/
def toBlocks (bs : List Nat) : List (List Nat) :=
  if h : bs = [] then []
  else bs.take 16 :: toBlocks (bs.drop 16)
termination_by bs.length
decreasing_by
  have hp : 0 < bs.length := List.length_pos.mpr h
  simp only [List.length_drop]
  omega

/-- CBC chaining on the encryption side: each plaintext block is xored with
the previous ciphertext block (initially the IV) before the block cipher. -/
def cbcEncBlocks (E : List Nat → List Nat) : List Nat → List (List Nat) → List (List Nat)
  | _, [] => []
  | prev, b :: rest =>
      E (xorBytes b prev) :: cbcEncBlocks E (E (xorBytes b prev)) rest

/-- CBC chaining on the decryption side. -/
def cbcDecBlocks (D : List Nat → List Nat) : List Nat → List (List Nat) → List (List Nat)
  | _, [] => []
  | prev, c :: rest => xorBytes (D c) prev :: cbcDecBlocks D c rest

/-- The key-selection step shared by `encrypt` and `decrypt`: an empty key
argument selects the process-wide default encryption key. -/
def actualKeyOf (defaultKey key : String) : String :=
  if key.isEmpty then defaultKey else key

/-- The raw ciphertext bytes produced inside `encrypt` (lines 299-329):
CBC encryption of the padded plaintext under the selected key. -/
def cipherTextOf (enc : String → List Nat → List Nat) (defaultKey key : String)
    (iv data : List Nat) : List Nat :=
  (cbcEncBlocks (enc (actualKeyOf defaultKey key)) iv (toBlocks (pkcs7pad data))).flatten

/-- `encrypt(data, key)` (lines 281-338): selects the key, encrypts the
plaintext bytes in CBC mode under the fresh random `iv`, prepends the IV and
base64-encodes the blob.  Entropy and context-allocation failures of the
source (which return the empty string) are outside the model; the fresh IV is
the explicit `iv` argument. -/
def encrypt (enc : String → List Nat → List Nat) (defaultKey key : String)
    (iv data : List Nat) : List Nat :=
  base64encode (iv ++ cipherTextOf enc defaultKey key iv data)

/-- The two decryption failure shapes of the source, distinguished by their
log messages: the short-blob check at lines 344-348 (malformed input) and a
rejection by the cipher layer, such as a padding failure in
`EVP_DecryptFinal_ex` at line 383. -/
inductive DecryptError
  | malformed
  | cipherError
deriving DecidableEq, Repr

/-- `decrypt(encryptedData, key)` (lines 340-395): base64-decode, reject blobs
shorter than the 16-byte IV, split off the IV, CBC-decrypt the rest and strip
the padding. -/
def decrypt (dec : String → List Nat → List Nat) (defaultKey key : String)
    (encryptedData : List Nat) : Except DecryptError (List Nat) :=
  let data := base64decode encryptedData
  if data.length < 16 then Except.error DecryptError.malformed
  else
    let iv := data.take 16
    let ciphertext := data.drop 16
    match pkcs7unpad ((cbcDecBlocks (dec (actualKeyOf defaultKey key)) iv
        (toBlocks ciphertext)).flatten) with
    | some pt => Except.ok pt
    | none => Except.error DecryptError.cipherError

/-! ## The security data model (SecurityManager.h) -/

/-- The closed role enumeration (`enum class UserRole`). -/
inductive UserRole
  | SuperAdmin
  | Administrator
  | Receptionist
  | SecurityGuard
deriving DecidableEq, Repr

/-- `struct User` of SecurityManager.h. -/
structure User where
  userId : String
  username : String
  passwordHash : String
  salt : String
  role : UserRole
  isActive : Bool
  lastLogin : Option Nat
  createdAt : Option Nat
  failedLoginAttempts : Nat
  lockoutUntil : Option Nat
deriving DecidableEq, Repr

/-- `struct UserSession` of SecurityManager.h. -/
structure UserSession where
  userId : String
  sessionId : String
  role : UserRole
  lastActivity : Nat
  ipAddress : String
  loginTime : Nat
  failedAttempts : Nat
deriving DecidableEq, Repr

/-- One row of the `security_events` audit table written by
`logSecurityEvent`. -/
structure SecurityEvent where
  eventType : String
  details : String
deriving DecidableEq, Repr

/-- The mutable state of the security core: the persisted user store (merged
with its cache, keyed by username), the in-memory session registry, and the
append-only audit trail. -/
structure SecState where
  users : List (String × User)
  activeSessions : List (String × UserSession)
  events : List SecurityEvent
deriving DecidableEq, Repr

/-! Constants from SecurityManager.h. -/

def SESSION_TIMEOUT_MINUTES : Nat := 30

def MAX_LOGIN_ATTEMPTS : Nat := 5

def LOGIN_LOCKOUT_MINUTES : Nat := 15

def MIN_PASSWORD_LENGTH : Nat := 12

/-! ## Store and registry primitives -/

/-- `getUserByUsername`: cache/database lookup by username.  The source
signals absence with a default `User` whose username is empty; the model uses
`Option`. -/
def lookupUser (st : SecState) (username : String) : Option User :=
  (st.users.find? (fun p => p.1 == username)).map (fun p => p.2)

/-- `saveUser`: upsert of a user record (database row plus cache entry). -/
def saveUser (st : SecState) (user : User) : SecState :=
  { st with users :=
      if st.users.any (fun p => p.1 == user.username) then
        st.users.map (fun p => if p.1 == user.username then (p.1, user) else p)
      else
        st.users ++ [(user.username, user)] }

/-- Session registry lookup (`activeSessions.contains` / `operator[]`). -/
def lookupSession (st : SecState) (sessionId : String) : Option UserSession :=
  (st.activeSessions.find? (fun p => p.1 == sessionId)).map (fun p => p.2)

/-- `activeSessions.insert(sessionId, session)`: `QHash::insert` replaces an
existing entry with the same key. -/
def insertSession (l : List (String × UserSession)) (sessionId : String)
    (session : UserSession) : List (String × UserSession) :=
  if l.any (fun p => p.1 == sessionId) then
    l.map (fun p => if p.1 == sessionId then (p.1, session) else p)
  else
    l ++ [(sessionId, session)]

/-- `logSecurityEvent`: appends one row to the `security_events` audit
table. -/
def logSecurityEvent (st : SecState) (event details : String) : SecState :=
  { st with events := st.events ++ [{ eventType := event, details := details }] }

/-! ## Password hashing (hashPassword / verifyPassword) -/

/-- `hashPassword(password, salt)`: when the salt argument is empty a fresh
salt is generated (and lost, since only the hash is returned); the actual
derivation (base64-decode of the salt, PBKDF2-HMAC-SHA256, base64 of the
output) is the external OpenSSL primitive, abstracted as the function
parameter `kdf` applied to the password and the salt actually used. -/
def hashPassword (kdf : String → String → String) (freshSalt : String)
    (password salt : String) : String :=
  let actualSalt := if salt.isEmpty then freshSalt else salt
  kdf password actualSalt

/-- `verifyPassword(password, hash, salt)`: recomputes the hash with the
stored salt and compares. -/
def verifyPassword (kdf : String → String → String) (freshSalt : String)
    (password hash salt : String) : Bool :=
  hashPassword kdf freshSalt password salt == hash

/-! ## Lockout policy -/

/-- `isUserLocked(username)` (SecurityManager.cpp lines 468-482). -/
def isUserLocked (now : Nat) (st : SecState) (username : String) : Bool :=
  match lookupUser st username with
  | none => false
  | some user =>
      if MAX_LOGIN_ATTEMPTS ≤ user.failedLoginAttempts then
        match user.lockoutUntil with
        | some t => decide (now < t)
        | none => false
      else false

/-- `incrementFailedAttempts(username)` (lines 484-497). -/
def incrementFailedAttempts (now : Nat) (st : SecState) (username : String) :
    SecState :=
  match lookupUser st username with
  | none => st
  | some user =>
      let n := user.failedLoginAttempts + 1
      saveUser st
        { user with
          failedLoginAttempts := n
          lockoutUntil :=
            if MAX_LOGIN_ATTEMPTS ≤ n then
              some (now + LOGIN_LOCKOUT_MINUTES * 60)
            else user.lockoutUntil }

/-- `resetFailedAttempts(username)` (lines 499-509). -/
def resetFailedAttempts (st : SecState) (username : String) : SecState :=
  match lookupUser st username with
  | none => st
  | some user =>
      saveUser st { user with failedLoginAttempts := 0, lockoutUntil := none }

/-! ## Authenticator -/

/-- The per-call environment of `authenticate`: the abstract KDF, the values
the entropy source would produce (fresh salt for a hypothetical empty-salt
hash, fresh session id), and the current time. -/
structure AuthEnv where
  kdf : String → String → String
  freshSalt : String
  newSessionId : String
  now : Nat

/-- Result of one `authenticate` call: the returned session id (the empty
string is the failure return `QString()` of the source), the final state, and
an instrumentation flag recording whether the password hasher
(`verifyPassword`) was consulted on this call. -/
structure AuthOutcome where
  sessionId : String
  hasherCalled : Bool
  state : SecState

/-- `authenticate(username, password, ipAddress)` (lines 87-140), step for
step: lockout pre-check, user fetch, active check, password verification with
failed-attempt bookkeeping, then session creation.  Note that on success the
source saves the local `user` copy fetched at line 96 (only `lastLogin`
updated) after `resetFailedAttempts` has run. -/
def authenticate (env : AuthEnv) (st : SecState)
    (username password ipAddress : String) : AuthOutcome :=
  if isUserLocked env.now st username then
    { sessionId := ""
      hasherCalled := false
      state := logSecurityEvent st "AUTH_FAILED"
        ("User " ++ username ++ " is locked out from IP " ++ ipAddress) }
  else
    match lookupUser st username with
    | none =>
        { sessionId := ""
          hasherCalled := false
          state := logSecurityEvent st "AUTH_FAILED"
            ("User " ++ username ++ " not found from IP " ++ ipAddress) }
    | some user =>
        if !user.isActive then
          { sessionId := ""
            hasherCalled := false
            state := logSecurityEvent st "AUTH_FAILED"
              ("User " ++ username ++ " is inactive from IP " ++ ipAddress) }
        else if !verifyPassword env.kdf env.freshSalt password user.passwordHash user.salt then
          { sessionId := ""
            hasherCalled := true
            state := logSecurityEvent (incrementFailedAttempts env.now st username)
              "AUTH_FAILED"
              ("Invalid password for user " ++ username ++ " from IP " ++ ipAddress) }
        else
          let st1 := resetFailedAttempts st username
          let session : UserSession :=
            { userId := user.userId
              sessionId := env.newSessionId
              role := user.role
              lastActivity := env.now
              ipAddress := ipAddress
              loginTime := env.now
              failedAttempts := 0 }
          let st2 := { st1 with
            activeSessions := insertSession st1.activeSessions env.newSessionId session }
          let st3 := saveUser st2 { user with lastLogin := some env.now }
          { sessionId := env.newSessionId
            hasherCalled := true
            state := logSecurityEvent st3 "AUTH_SUCCESS"
              ("User " ++ username ++ " logged in from IP " ++ ipAddress) }

/-- `logout(sessionId)` (lines 142-146): removes the session and returns
whether something was removed.  It logs nothing. -/
def logout (st : SecState) (sessionId : String) : Bool × SecState :=
  (st.activeSessions.any (fun p => p.1 == sessionId),
   { st with activeSessions := st.activeSessions.filter (fun p => !(p.1 == sessionId)) })

/-- `validateSession(sessionId)` (lines 148-166): absent id fails; an entry
whose `lastActivity` plus the timeout is strictly before `now` is evicted and
fails; otherwise `lastActivity` is refreshed and the call succeeds. -/
def validateSession (now : Nat) (st : SecState) (sessionId : String) :
    Bool × SecState :=
  match lookupSession st sessionId with
  | none => (false, st)
  | some session =>
      if session.lastActivity + SESSION_TIMEOUT_MINUTES * 60 < now then
        (false, { st with
          activeSessions := st.activeSessions.filter (fun p => !(p.1 == sessionId)) })
      else
        (true, { st with
          activeSessions := st.activeSessions.map (fun p =>
            if p.1 == sessionId then (p.1, { session with lastActivity := now }) else p) })

/-- `hasPermission(sessionId, resource, action)` (lines 175-205): presence
lookup followed by the static role table.  Expiry of a still-present session
is not consulted. -/
def hasPermission (st : SecState) (sessionId resource action : String) : Bool :=
  match lookupSession st sessionId with
  | none => false
  | some session =>
      match session.role with
      | UserRole.SuperAdmin => true
      | UserRole.Administrator => !(resource == "system_config")
      | UserRole.Receptionist =>
          resource == "visitor" &&
            (action == "register" || action == "checkin" || action == "checkout")
      | UserRole.SecurityGuard => resource == "visitor" && action == "view"

/-- Failure type for `getUserRole`; the source throws
`std::runtime_error("Invalid session")`, modelled as a typed error. -/
inductive SessionError
  | invalidSession
deriving DecidableEq, Repr

/-- `getUserRole(sessionId)` (lines 207-216): fails for an absent id,
otherwise returns the role snapshot of the (possibly long-expired) session. -/
def getUserRole (st : SecState) (sessionId : String) :
    Except SessionError UserRole :=
  match lookupSession st sessionId with
  | none => Except.error SessionError.invalidSession
  | some session => Except.ok session.role

/-! ## Password strength and user creation -/

/-- The four `QChar` classification predicates used by
`validatePasswordStrength`; Qt implements them over all of Unicode, so they
enter the model as parameters. -/
structure CharClassifier where
  isUp : Char → Bool
  isLow : Char → Bool
  isDig : Char → Bool
  isLetterOrNumber : Char → Bool

/-- `validatePasswordStrength(password)` (lines 533-549).  The source loop
sets four monotone flags through an if/else-if chain; each flag is therefore
exactly "some character satisfies its guarded condition". -/
def validatePasswordStrength (qc : CharClassifier) (password : String) : Bool :=
  if password.length < MIN_PASSWORD_LENGTH then false
  else
    let hasUpper := password.data.any (fun ch => qc.isUp ch)
    let hasLower := password.data.any (fun ch => !qc.isUp ch && qc.isLow ch)
    let hasDigit := password.data.any (fun ch =>
      !qc.isUp ch && !qc.isLow ch && qc.isDig ch)
    let hasSpecial := password.data.any (fun ch =>
      !qc.isUp ch && !qc.isLow ch && !qc.isDig ch && !qc.isLetterOrNumber ch)
    hasUpper && hasLower && hasDigit && hasSpecial

/-- Per-call environment of `createUser`: abstract KDF, the salt
`generateSalt` would produce, the fresh user id, and the current time. -/
structure CreateEnv where
  kdf : String → String → String
  freshSalt : String
  newUserId : String
  now : Nat

/-- `createUser(username, password, role)` (lines 430-466): strength check,
duplicate check, hash, then save plus audit event.  `saveUser` cannot fail in
the model (no database), so the final save always succeeds. -/
def createUser (qc : CharClassifier) (env : CreateEnv) (st : SecState)
    (username password : String) (role : UserRole) : Bool × SecState :=
  if !validatePasswordStrength qc password then (false, st)
  else if (lookupUser st username).isSome then (false, st)
  else
    let salt := env.freshSalt
    let hash := hashPassword env.kdf env.freshSalt password salt
    if hash == "" then (false, st)
    else
      let user : User :=
        { userId := env.newUserId
          username := username
          passwordHash := hash
          salt := salt
          role := role
          isActive := true
          lastLogin := none
          createdAt := some env.now
          failedLoginAttempts := 0
          lockoutUntil := none }
      let st1 := saveUser st user
      (true, logSecurityEvent st1 "USER_CREATED" ("User " ++ username ++ " created"))

/-! ## Helper lemmas: base64 -/

/-- Decoding one alphabet byte recovers the sextet that produced it. -/
theorem b64index_b64char (n : Nat) (h : n < 64) : b64index (b64char n) = some n := by
  unfold b64char b64index
  split_ifs <;> first
    | (congr 1; omega)
    | (exfalso; omega)

/-- The padding byte 61 is outside the decoding alphabet. -/
theorem b64index_padByte : b64index 61 = none := by decide

/-- Base64 decoding inverts base64 encoding on byte lists. -/
theorem base64_roundtrip : ∀ bs : List Nat, (∀ x ∈ bs, x < 256) →
    base64decode (base64encode bs) = bs
  | [], _ => rfl
  | [a], h => by
      have ha : a < 256 := h a (by simp)
      have h1 := b64index_b64char (a / 4) (by omega)
      have h2 := b64index_b64char (a % 4 * 16) (by omega)
      simp only [base64encode, base64decode, List.filterMap_cons, h1, h2,
        b64index_padByte, List.filterMap_nil, decodeSextets, List.cons.injEq, and_true]
      omega
  | [a, b], h => by
      have ha : a < 256 := h a (by simp)
      have hb : b < 256 := h b (by simp)
      have h1 := b64index_b64char (a / 4) (by omega)
      have h2 := b64index_b64char (a % 4 * 16 + b / 16) (by omega)
      have h3 := b64index_b64char (b % 16 * 4) (by omega)
      simp only [base64encode, base64decode, List.filterMap_cons, h1, h2, h3,
        b64index_padByte, List.filterMap_nil, decodeSextets, List.cons.injEq, and_true]
      constructor <;> omega
  | a :: b :: c :: rest, h => by
      have ha : a < 256 := h a (by simp)
      have hb : b < 256 := h b (by simp)
      have hc : c < 256 := h c (by simp)
      have ih := base64_roundtrip rest (fun x hx => h x (by simp [hx]))
      have h1 := b64index_b64char (a / 4) (by omega)
      have h2 := b64index_b64char (a % 4 * 16 + b / 16) (by omega)
      have h3 := b64index_b64char (b % 16 * 4 + c / 64) (by omega)
      have h4 := b64index_b64char (c % 64) (by omega)
      simp only [base64decode] at ih
      simp only [base64encode, base64decode, List.filterMap_cons, h1, h2, h3, h4,
        decodeSextets, List.cons.injEq]
      exact ⟨by omega, by omega, by omega, ih⟩

/-! ## Helper lemmas: block splitting, xor, CBC chaining, PKCS7 padding -/

theorem toBlocks_nil : toBlocks [] = [] := by
  rw [toBlocks]
  simp

/-- Flattening the 16-byte blocks recovers the original byte list. -/
theorem toBlocks_flatten (bs : List Nat) : (toBlocks bs).flatten = bs := by
  rw [toBlocks]
  split
  · rename_i h
    simp [h]
  · rename_i h
    have hp : 0 < bs.length := List.length_pos.mpr h
    simp only [List.flatten_cons]
    rw [toBlocks_flatten (bs.drop 16)]
    exact List.take_append_drop 16 bs
termination_by bs.length
decreasing_by
  simp only [List.length_drop]
  omega

/-- When the length is a multiple of 16, every block has length 16. -/
theorem toBlocks_length_blocks (bs : List Nat) (hdiv : bs.length % 16 = 0) :
    ∀ b ∈ toBlocks bs, b.length = 16 := by
  rw [toBlocks]
  split
  · simp
  · rename_i h
    intro b hb
    have hp : 0 < bs.length := List.length_pos.mpr h
    have h16 : 16 ≤ bs.length := by omega
    rcases List.mem_cons.mp hb with rfl | hmem
    · simp only [List.length_take]
      omega
    · exact toBlocks_length_blocks (bs.drop 16)
        (by simp only [List.length_drop]; omega) b hmem
termination_by bs.length
decreasing_by
  simp only [List.length_drop]
  omega

/-- Every byte of every block comes from the original list. -/
theorem toBlocks_subset (bs : List Nat) :
    ∀ b ∈ toBlocks bs, ∀ x ∈ b, x ∈ bs := by
  rw [toBlocks]
  split
  · simp
  · rename_i h
    intro b hb x hx
    have hp : 0 < bs.length := List.length_pos.mpr h
    rcases List.mem_cons.mp hb with rfl | hmem
    · exact List.take_subset 16 bs hx
    · exact List.drop_subset 16 bs (toBlocks_subset (bs.drop 16) b hmem x hx)
termination_by bs.length
decreasing_by
  simp only [List.length_drop]
  omega

/-- Splitting a flattened list of exact 16-byte blocks gives the blocks
back. -/
theorem toBlocks_of_flatten (blocks : List (List Nat))
    (h : ∀ b ∈ blocks, b.length = 16) : toBlocks blocks.flatten = blocks := by
  induction blocks with
  | nil => exact toBlocks_nil
  | cons b rest ih =>
      have hb : b.length = 16 := h b (by simp)
      have hne : b ++ rest.flatten ≠ [] := by
        apply List.length_pos.mp
        simp only [List.length_append, hb]
        omega
      rw [List.flatten_cons, toBlocks, dif_neg hne]
      congr 1
      · rw [← hb]
        exact List.take_left b rest.flatten
      · rw [← hb, List.drop_left]
        exact ih (fun x hx => h x (by simp [hx]))

theorem xorBytes_cancel (a : List Nat) : ∀ b : List Nat, a.length ≤ b.length →
    xorBytes (xorBytes a b) b = a := by
  induction a with
  | nil => intro b _; rfl
  | cons x xs ih =>
      intro b h
      cases b with
      | nil => simp at h
      | cons y ys =>
          simp only [xorBytes, List.zipWith_cons_cons]
          have hx : Nat.xor (Nat.xor x y) y = x := Nat.xor_cancel_right y x
          rw [hx]
          exact congrArg _ (ih ys (by simpa using h))

theorem xorBytes_length (a b : List Nat) :
    (xorBytes a b).length = min a.length b.length := by
  simp [xorBytes]

/-- Xor of byte lists stays below 256. -/
theorem xorBytes_lt (a : List Nat) : ∀ b : List Nat,
    (∀ x ∈ a, x < 256) → (∀ x ∈ b, x < 256) → ∀ x ∈ xorBytes a b, x < 256 := by
  induction a with
  | nil => intro b _ _ x hx; simp [xorBytes] at hx
  | cons y ys ih =>
      intro b ha hb x hx
      cases b with
      | nil => simp [xorBytes] at hx
      | cons z zs =>
          simp only [xorBytes, List.zipWith_cons_cons, List.mem_cons] at hx
          rcases hx with rfl | hx
          · have e : (2 : Nat) ^ 8 = 256 := by norm_num
            refine e ▸ Nat.xor_lt_two_pow ?_ ?_
            · exact e.symm ▸ ha y (by simp)
            · exact e.symm ▸ hb z (by simp)
          · exact ih zs (fun u hu => ha u (by simp [hu]))
              (fun u hu => hb u (by simp [hu])) x hx

/-- CBC decryption inverts CBC encryption, blockwise, for any block cipher
pair that inverts on 16-byte blocks. -/
theorem cbcDec_cbcEnc (E D : List Nat → List Nat)
    (hDE : ∀ b, b.length = 16 → D (E b) = b)
    (hElen : ∀ b, b.length = 16 → (E b).length = 16) :
    ∀ (blocks : List (List Nat)) (prev : List Nat), prev.length = 16 →
      (∀ b ∈ blocks, b.length = 16) →
      cbcDecBlocks D prev (cbcEncBlocks E prev blocks) = blocks := by
  intro blocks
  induction blocks with
  | nil => intro prev _ _; rfl
  | cons b rest ih =>
      intro prev hprev hblocks
      have hb : b.length = 16 := hblocks b (by simp)
      have hxb : (xorBytes b prev).length = 16 := by
        rw [xorBytes_length, hb, hprev]
        omega
      simp only [cbcEncBlocks, cbcDecBlocks]
      rw [hDE _ hxb, xorBytes_cancel b prev (by omega)]
      exact congrArg _ (ih (E (xorBytes b prev)) (hElen _ hxb)
        (fun x hx => hblocks x (by simp [hx])))

theorem cbcEncBlocks_length (E : List Nat → List Nat)
    (hElen : ∀ b, b.length = 16 → (E b).length = 16) :
    ∀ (blocks : List (List Nat)) (prev : List Nat), prev.length = 16 →
      (∀ b ∈ blocks, b.length = 16) →
      ∀ c ∈ cbcEncBlocks E prev blocks, c.length = 16 := by
  intro blocks
  induction blocks with
  | nil => intro prev _ _ c hc; simp [cbcEncBlocks] at hc
  | cons b rest ih =>
      intro prev hprev hblocks c hc
      have hb : b.length = 16 := hblocks b (by simp)
      have hxb : (xorBytes b prev).length = 16 := by
        rw [xorBytes_length, hb, hprev]
        omega
      simp only [cbcEncBlocks, List.mem_cons] at hc
      rcases hc with rfl | hc
      · exact hElen _ hxb
      · exact ih (E (xorBytes b prev)) (hElen _ hxb)
          (fun x hx => hblocks x (by simp [hx])) c hc

theorem cbcEncBlocks_bytes (E : List Nat → List Nat)
    (hEb : ∀ b, (∀ x ∈ b, x < 256) → ∀ x ∈ E b, x < 256) :
    ∀ (blocks : List (List Nat)) (prev : List Nat), (∀ x ∈ prev, x < 256) →
      (∀ b ∈ blocks, ∀ x ∈ b, x < 256) →
      ∀ c ∈ cbcEncBlocks E prev blocks, ∀ x ∈ c, x < 256 := by
  intro blocks
  induction blocks with
  | nil => intro prev _ _ c hc; simp [cbcEncBlocks] at hc
  | cons b rest ih =>
      intro prev hprev hblocks c hc
      have hxb : ∀ x ∈ xorBytes b prev, x < 256 :=
        xorBytes_lt b prev (hblocks b (by simp)) hprev
      simp only [cbcEncBlocks, List.mem_cons] at hc
      rcases hc with rfl | hc
      · exact hEb _ hxb
      · exact ih (E (xorBytes b prev)) (hEb _ hxb)
          (fun x hx => hblocks x (by simp [hx])) c hc

theorem flatten_length_all16 (blocks : List (List Nat))
    (h : ∀ b ∈ blocks, b.length = 16) :
    blocks.flatten.length = 16 * blocks.length := by
  induction blocks with
  | nil => rfl
  | cons b rest ih =>
      simp only [List.flatten_cons, List.length_append, List.length_cons,
        h b (by simp), ih (fun x hx => h x (by simp [hx]))]
      ring

theorem getLast?_append_replicate (l : List Nat) (n x : Nat) (hn : 0 < n) :
    (l ++ List.replicate n x).getLast? = some x := by
  rw [← List.head?_reverse, List.reverse_append, List.reverse_replicate]
  cases n with
  | zero => omega
  | succ m => simp [List.replicate_succ]

/-- Stripping the PKCS7 padding that `pkcs7pad` added recovers the
plaintext. -/
theorem pkcs7unpad_pkcs7pad (bs : List Nat) : pkcs7unpad (pkcs7pad bs) = some bs := by
  have hp1 : 1 ≤ 16 - bs.length % 16 := by omega
  have hlast : (pkcs7pad bs).getLast? = some (16 - bs.length % 16) :=
    getLast?_append_replicate bs _ _ (by omega)
  have hL : (pkcs7pad bs).length = bs.length + (16 - bs.length % 16) := by
    simp [pkcs7pad]
  have hsub : (pkcs7pad bs).length - (16 - bs.length % 16) = bs.length := by
    omega
  have hdrop : (pkcs7pad bs).drop ((pkcs7pad bs).length - (16 - bs.length % 16)) =
      List.replicate (16 - bs.length % 16) (16 - bs.length % 16) := by
    rw [hsub]
    exact List.drop_left bs _
  have htake : (pkcs7pad bs).take ((pkcs7pad bs).length - (16 - bs.length % 16)) = bs := by
    rw [hsub]
    exact List.take_left bs _
  simp only [pkcs7unpad, hlast]
  rw [if_pos ⟨hp1, by omega, by omega, hdrop⟩]
  rw [htake]

theorem cbcEncBlocks_count (E : List Nat → List Nat) :
    ∀ (blocks : List (List Nat)) (prev : List Nat),
      (cbcEncBlocks E prev blocks).length = blocks.length := by
  intro blocks
  induction blocks with
  | nil => intro prev; rfl
  | cons b rest ih => intro prev; simp [cbcEncBlocks, ih]

/-! ## Helper lemmas: session registry and audit trail -/

theorem find?_filter_ne_none (l : List (String × UserSession)) (sid : String) :
    List.find? (fun p => p.1 == sid) (l.filter (fun p => !(p.1 == sid))) = none := by
  apply List.find?_eq_none.mpr
  intro x hx
  have hmem := (List.mem_filter.mp hx).2
  simp only [Bool.not_eq_true'] at hmem
  simp [hmem]

theorem find?_update (l : List (String × UserSession)) (sid : String) (v : UserSession) :
    List.find? (fun p => p.1 == sid)
        (l.map (fun p => if p.1 == sid then (p.1, v) else p)) =
      (List.find? (fun p => p.1 == sid) l).map (fun p => (p.1, v)) := by
  induction l with
  | nil => rfl
  | cons q rest ih =>
      simp only [List.map_cons]
      cases hq : (q.1 == sid) with
      | true =>
          rw [if_pos rfl]
          rw [@List.find?_cons_of_pos _ (fun p => p.1 == sid) (q.1, v) _ hq]
          rw [@List.find?_cons_of_pos _ (fun p => p.1 == sid) q _ hq, Option.map_some']
      | false =>
          rw [if_neg (by simp)]
          rw [@List.find?_cons_of_neg _ (fun p => p.1 == sid) q _ (by simp [hq])]
          rw [@List.find?_cons_of_neg _ (fun p => p.1 == sid) q _ (by simp [hq]), ih]

theorem saveUser_events (st : SecState) (u : User) : (saveUser st u).events = st.events := rfl

theorem incrementFailedAttempts_events (now : Nat) (st : SecState) (username : String) :
    (incrementFailedAttempts now st username).events = st.events := by
  unfold incrementFailedAttempts
  split <;> rfl

theorem resetFailedAttempts_events (st : SecState) (username : String) :
    (resetFailedAttempts st username).events = st.events := by
  unfold resetFailedAttempts
  split <;> rfl

/-! ## Shared concrete instances used by witnesses and counterexamples -/

/-- A concrete KDF instance for witnesses (any function of password and salt). -/
def kdfW : String → String → String := fun p s => p ++ "|" ++ s

/-- A concrete session whose `lastActivity` is far in the past. -/
def sessW : UserSession :=
  { userId := "u1"
    sessionId := "s1"
    role := UserRole.SuperAdmin
    lastActivity := 0
    ipAddress := "10.0.0.1"
    loginTime := 0
    failedAttempts := 0 }

/-- A state holding only the stale session `sessW`. -/
def stSession : SecState :=
  { users := [], activeSessions := [("s1", sessW)], events := [] }

/-- The empty state. -/
def stEmpty : SecState := { users := [], activeSessions := [], events := [] }

/-! ## Claim C7 -/

/-- C7: a session present in the registry whose lastActivity plus the
30-minute timeout is earlier than now makes validateSession return false and
evicts it; a present, non-expired session makes validateSession return true
and refreshes its lastActivity to now. -/
theorem validateSession_spec (now : Nat) (st : SecState) (sid : String)
    (session : UserSession) (h : lookupSession st sid = some session) :
    (session.lastActivity + SESSION_TIMEOUT_MINUTES * 60 < now →
      (validateSession now st sid).1 = false ∧
      lookupSession (validateSession now st sid).2 sid = none) ∧
    (¬ session.lastActivity + SESSION_TIMEOUT_MINUTES * 60 < now →
      (validateSession now st sid).1 = true ∧
      lookupSession (validateSession now st sid).2 sid =
        some { session with lastActivity := now }) := by
  obtain ⟨q, hfq, hq2⟩ : ∃ q, List.find? (fun p => p.1 == sid) st.activeSessions = some q ∧
      q.2 = session := by
    unfold lookupSession at h
    cases hfq : List.find? (fun p => p.1 == sid) st.activeSessions with
    | none => rw [hfq] at h; simp at h
    | some q =>
        rw [hfq] at h
        simp only [Option.map_some'] at h
        exact ⟨q, rfl, by injection h⟩
  constructor
  · intro hexp
    simp only [validateSession, h]
    rw [if_pos hexp]
    refine ⟨rfl, ?_⟩
    show (List.find? (fun p => p.1 == sid)
        (st.activeSessions.filter (fun p => !(p.1 == sid)))).map (fun p => p.2) = none
    rw [find?_filter_ne_none]
    rfl
  · intro hexp
    simp only [validateSession, h]
    rw [if_neg hexp]
    refine ⟨rfl, ?_⟩
    show (List.find? (fun p => p.1 == sid)
        (st.activeSessions.map (fun p =>
          if p.1 == sid then (p.1, { session with lastActivity := now }) else p))).map
        (fun p => p.2) = some { session with lastActivity := now }
    rw [find?_update, hfq]
    rfl

/-- Witness for C7 at a concrete expired session. -/
theorem validateSession_spec_witness :
    (validateSession 999999 stSession "s1").1 = false ∧
    lookupSession (validateSession 999999 stSession "s1").2 "s1" = none :=
  (validateSession_spec 999999 stSession "s1" sessW rfl).1 (by decide)

/-! ## Claim C8 -/

/-- C8 (amended): for a session id absent from the registry, hasPermission
returns false for every resource and action and getUserRole fails with
InvalidSession; but expiry of a still-registered session is not checked by
either function (see the counterexample). -/
theorem absent_session_denied (st : SecState) (sid resource action : String)
    (h : lookupSession st sid = none) :
    hasPermission st sid resource action = false ∧
    getUserRole st sid = Except.error SessionError.invalidSession := by
  unfold hasPermission getUserRole
  rw [h]
  exact ⟨rfl, rfl⟩

/-- Witness for C8 on the empty registry. -/
theorem absent_session_denied_witness :
    hasPermission stEmpty "nosuch" "visitor" "view" = false ∧
    getUserRole stEmpty "nosuch" = Except.error SessionError.invalidSession :=
  absent_session_denied stEmpty "nosuch" "visitor" "view" rfl

/-- C8 counterexample: a session whose lastActivity is far older than the
timeout but which is still in the registry (not yet swept or validated) is
granted permissions and yields a role; expiry is never consulted by
hasPermission or getUserRole, contrary to the claim. -/
theorem expired_session_still_authorized :
    sessW.lastActivity + SESSION_TIMEOUT_MINUTES * 60 < 1000000 ∧
    hasPermission stSession "s1" "system_config" "write" = true ∧
    getUserRole stSession "s1" = Except.ok UserRole.SuperAdmin :=
  ⟨by decide, rfl, rfl⟩

/-! ## Claim C9 -/

/-- C9 (amended): every authenticate call appends exactly one SecurityEvent
to the audit trail on every path (locked, unknown user, inactive, wrong
password, success); lockout transitions happen inside the wrong-password
path, which emits its event; but logout removes the session without
recording any SecurityEvent. -/
theorem authenticate_logs_logout_does_not (env : AuthEnv) (st : SecState)
    (username password ipAddress : String) (st2 : SecState) (sid : String) :
    (authenticate env st username password ipAddress).state.events.length =
      st.events.length + 1 ∧
    (logout st2 sid).2.events = st2.events := by
  constructor
  · unfold authenticate
    repeat' split
    all_goals
      simp [logSecurityEvent, incrementFailedAttempts_events,
        resetFailedAttempts_events, saveUser_events]
  · rfl

/-- C9 counterexample: logout of an existing session succeeds (returns true)
yet the audit trail stays empty, so logout does not always record a
SecurityEvent. -/
theorem logout_records_no_event :
    (logout stSession "s1").1 = true ∧ (logout stSession "s1").2.events = [] :=
  ⟨rfl, rfl⟩

/-! ## Claim C1 -/

/-- C1: while a user has failedLoginAttempts at or above MAX_LOGIN_ATTEMPTS
and lockoutUntil strictly in the future, authenticate rejects every password
(returns the empty-string failure) and the password hasher is never
consulted on that call. -/
theorem authenticate_locked_rejects (env : AuthEnv) (st : SecState)
    (username password ipAddress : String) (user : User) (t : Nat)
    (hu : lookupUser st username = some user)
    (ha : MAX_LOGIN_ATTEMPTS ≤ user.failedLoginAttempts)
    (hl : user.lockoutUntil = some t)
    (ht : env.now < t) :
    (authenticate env st username password ipAddress).sessionId = "" ∧
    (authenticate env st username password ipAddress).hasherCalled = false := by
  have hlocked : isUserLocked env.now st username = true := by
    simp only [isUserLocked, hu, hl, if_pos ha]
    exact decide_eq_true ht
  simp [authenticate, hlocked]

/-- A user currently locked out: five failed attempts, lockout until 1000. -/
def userLocked : User :=
  { userId := "u2"
    username := "bob"
    passwordHash := kdfW "RightPass7" "slt"
    salt := "slt"
    role := UserRole.Administrator
    isActive := true
    lastLogin := none
    createdAt := none
    failedLoginAttempts := 5
    lockoutUntil := some 1000 }

def stLocked : SecState :=
  { users := [("bob", userLocked)], activeSessions := [], events := [] }

/-- Call environment at time 500, inside the lockout window. -/
def envLocked : AuthEnv :=
  { kdf := kdfW, freshSalt := "fs", newSessionId := "sess9", now := 500 }

/-- Witness for C1: even the correct password is rejected during lockout and
the hasher is not consulted. -/
theorem authenticate_locked_rejects_witness :
    (authenticate envLocked stLocked "bob" "RightPass7" "1.2.3.4").sessionId = "" ∧
    (authenticate envLocked stLocked "bob" "RightPass7" "1.2.3.4").hasherCalled = false :=
  authenticate_locked_rejects envLocked stLocked "bob" "RightPass7" "1.2.3.4"
    userLocked 1000 rfl (by decide) rfl (by decide)

/-! ## Claim C2 -/

/-- An active user whose lockout window (until time 100) has elapsed. -/
def userC2 : User :=
  { userId := "u1"
    username := "alice"
    passwordHash := kdfW "GoodPass1" "saltA"
    salt := "saltA"
    role := UserRole.Receptionist
    isActive := true
    lastLogin := none
    createdAt := none
    failedLoginAttempts := 5
    lockoutUntil := some 100 }

def stC2 : SecState :=
  { users := [("alice", userC2)], activeSessions := [], events := [] }

/-- Call environment at time 200, after the lockout has elapsed. -/
def envC2 : AuthEnv :=
  { kdf := kdfW, freshSalt := "fresh", newSessionId := "sessNew", now := 200 }

/-- C2 (code bug): with the lockout elapsed (now = 200, lockoutUntil = 100)
and the correct password, authenticate succeeds and returns the fresh session
id, but the stored user afterwards still has failedLoginAttempts = 5 and
lockoutUntil = 100: the save of the stale local user copy at
SecurityManager.cpp line 136 (fetched at line 96, with only lastLogin
updated) overwrites the reset performed by resetFailedAttempts at line 116,
contradicting the comment at line 115. -/
theorem authenticate_success_does_not_reset_attempts :
    (authenticate envC2 stC2 "alice" "GoodPass1" "9.9.9.9").sessionId = "sessNew" ∧
    ((lookupUser (authenticate envC2 stC2 "alice" "GoodPass1" "9.9.9.9").state "alice").map
      User.failedLoginAttempts) = some 5 ∧
    ((lookupUser (authenticate envC2 stC2 "alice" "GoodPass1" "9.9.9.9").state "alice").map
      User.lockoutUntil) = some (some 100) :=
  ⟨rfl, rfl, rfl⟩

/-! ## Claim C3 -/

/-- C3: verifying a password against the hash computed from it with the same
non-empty salt succeeds, for every KDF instance and every password.  The two
freshSalt parameters show the fresh-salt path is irrelevant here: a non-empty
salt argument is used as given. -/
theorem verifyPassword_of_hashPassword (kdf : String → String → String)
    (fs1 fs2 password salt : String) (hs : salt ≠ "") :
    verifyPassword kdf fs1 password (hashPassword kdf fs2 password salt) salt = true := by
  have he : salt.isEmpty = false := by
    cases h : salt.isEmpty with
    | false => rfl
    | true => exact absurd ((String.isEmpty_iff salt).mp h) hs
  unfold verifyPassword hashPassword
  rw [he]
  simp

/-- Witness for C3 at a concrete KDF, password and salt. -/
theorem verifyPassword_of_hashPassword_witness :
    verifyPassword kdfW "f1" "pw" (hashPassword kdfW "f2" "pw" "salty") "salty" = true :=
  verifyPassword_of_hashPassword kdfW "f1" "f2" "pw" "salty" (by decide)

/-! ## Claim C10 -/

/-- C10: a password shorter than MIN_PASSWORD_LENGTH = 12, or containing no
uppercase letter, no lowercase letter, no digit, or no special
(non-letter-or-number) character, makes createUser return false with the
state unchanged: no user record is created or modified. -/
theorem createUser_rejects_weak_password (qc : CharClassifier) (env : CreateEnv)
    (st : SecState) (username password : String) (role : UserRole)
    (h : password.length < MIN_PASSWORD_LENGTH ∨
         (∀ c ∈ password.data, qc.isUp c = false) ∨
         (∀ c ∈ password.data, qc.isLow c = false) ∨
         (∀ c ∈ password.data, qc.isDig c = false) ∨
         (∀ c ∈ password.data, qc.isLetterOrNumber c = true)) :
    createUser qc env st username password role = (false, st) := by
  have hv : validatePasswordStrength qc password = false := by
    unfold validatePasswordStrength
    by_cases hlen : password.length < MIN_PASSWORD_LENGTH
    · rw [if_pos hlen]
    · rw [if_neg hlen]
      rcases h with h | h | h | h | h
      · exact absurd h hlen
      · have hfalse : password.data.any (fun ch => qc.isUp ch) = false :=
          List.any_eq_false.mpr (fun c hc => by simp [h c hc])
        simp [hfalse]
      · have hfalse : password.data.any (fun ch => !qc.isUp ch && qc.isLow ch) = false :=
          List.any_eq_false.mpr (fun c hc => by simp [h c hc])
        simp [hfalse]
      · have hfalse : password.data.any
            (fun ch => !qc.isUp ch && !qc.isLow ch && qc.isDig ch) = false :=
          List.any_eq_false.mpr (fun c hc => by simp [h c hc])
        simp [hfalse]
      · have hfalse : password.data.any
            (fun ch => !qc.isUp ch && !qc.isLow ch && !qc.isDig ch &&
              !qc.isLetterOrNumber ch) = false :=
          List.any_eq_false.mpr (fun c hc => by simp [h c hc])
        simp [hfalse]
  simp [createUser, hv]

/-- The concrete classifier of the source: the four QChar predicates,
instantiated with the character classifiers of the Lean core library. -/
def qcW : CharClassifier :=
  { isUp := Char.isUpper
    isLow := Char.isLower
    isDig := fun c => c.isDigit
    isLetterOrNumber := fun c => c.isAlphanum }

def envCreate : CreateEnv :=
  { kdf := kdfW, freshSalt := "cs", newUserId := "uid9", now := 42 }

/-- Witness for C10: a five-character password is rejected and the state is
untouched. -/
theorem createUser_rejects_weak_password_witness :
    createUser qcW envCreate stEmpty "carol" "short" UserRole.Receptionist =
      (false, stEmpty) :=
  createUser_rejects_weak_password qcW envCreate stEmpty "carol" "short"
    UserRole.Receptionist (Or.inl (by decide))

/-! ## Claim C4 -/

/-- C4: decrypt inverts encrypt, for every plaintext byte list (including the
empty one), every key argument (empty selects the default key on both sides)
and every keyed block-cipher pair that is inverse on 16-byte blocks,
length-preserving and byte-valued (as the AES-256 primitive is). -/
theorem encrypt_decrypt_roundtrip
    (enc dec : String → List Nat → List Nat) (defaultKey key : String)
    (iv pt : List Nat)
    (hDE : ∀ k b, b.length = 16 → dec k (enc k b) = b)
    (hElen : ∀ k b, b.length = 16 → (enc k b).length = 16)
    (hEbytes : ∀ k b, (∀ x ∈ b, x < 256) → ∀ x ∈ enc k b, x < 256)
    (hiv : iv.length = 16) (hivb : ∀ x ∈ iv, x < 256)
    (hpt : ∀ x ∈ pt, x < 256) :
    decrypt dec defaultKey key (encrypt enc defaultKey key iv pt) = Except.ok pt := by
  have hpadb : ∀ x ∈ pkcs7pad pt, x < 256 := by
    intro x hx
    simp only [pkcs7pad, List.mem_append] at hx
    rcases hx with hx | hx
    · exact hpt x hx
    · have := List.eq_of_mem_replicate hx
      omega
  have hpadd : (pkcs7pad pt).length % 16 = 0 := by
    simp only [pkcs7pad, List.length_append, List.length_replicate]
    omega
  have hblocks16 := toBlocks_length_blocks (pkcs7pad pt) hpadd
  have hblocksb : ∀ b ∈ toBlocks (pkcs7pad pt), ∀ x ∈ b, x < 256 :=
    fun b hb x hx => hpadb x (toBlocks_subset (pkcs7pad pt) b hb x hx)
  have hctb : ∀ x ∈ cipherTextOf enc defaultKey key iv pt, x < 256 := by
    intro x hx
    simp only [cipherTextOf, List.mem_flatten] at hx
    obtain ⟨c, hc, hxc⟩ := hx
    exact cbcEncBlocks_bytes (enc (actualKeyOf defaultKey key))
      (hEbytes (actualKeyOf defaultKey key)) (toBlocks (pkcs7pad pt)) iv
      hivb hblocksb c hc x hxc
  have hblobb : ∀ x ∈ iv ++ cipherTextOf enc defaultKey key iv pt, x < 256 := by
    intro x hx
    rcases List.mem_append.mp hx with hx | hx
    · exact hivb x hx
    · exact hctb x hx
  have hdecode : base64decode (encrypt enc defaultKey key iv pt) =
      iv ++ cipherTextOf enc defaultKey key iv pt :=
    base64_roundtrip _ hblobb
  have henc16 : ∀ c ∈ cbcEncBlocks (enc (actualKeyOf defaultKey key)) iv
      (toBlocks (pkcs7pad pt)), c.length = 16 :=
    cbcEncBlocks_length _ (hElen _) _ iv hiv hblocks16
  have hlen : ¬ (base64decode (encrypt enc defaultKey key iv pt)).length < 16 := by
    rw [hdecode]
    simp only [List.length_append, hiv]
    omega
  simp only [decrypt]
  rw [if_neg hlen, hdecode, ← hiv, List.take_left, List.drop_left]
  simp only [cipherTextOf]
  rw [toBlocks_of_flatten _ henc16]
  rw [cbcDec_cbcEnc (enc (actualKeyOf defaultKey key)) (dec (actualKeyOf defaultKey key))
    (hDE _) (hElen _) (toBlocks (pkcs7pad pt)) iv hiv hblocks16]
  rw [toBlocks_flatten (pkcs7pad pt)]
  rw [pkcs7unpad_pkcs7pad]

/-- A concrete length-preserving, self-inverse block transformation standing
in for the block cipher in witnesses. -/
def revCipher : String → List Nat → List Nat := fun _ b => b.reverse

/-- Witness for C4: a three-byte plaintext round-trips through the CBC
construction with a concrete 16-byte IV. -/
theorem encrypt_decrypt_roundtrip_witness :
    decrypt revCipher "defKeyB64" ""
      (encrypt revCipher "defKeyB64" "" (List.replicate 16 7) [1, 2, 3]) =
      Except.ok [1, 2, 3] :=
  encrypt_decrypt_roundtrip revCipher revCipher "defKeyB64" ""
    (List.replicate 16 7) [1, 2, 3]
    (fun _ b _ => List.reverse_reverse b)
    (fun _ b hb => by simpa [revCipher] using hb)
    (fun _ b hb x hx => hb x (List.mem_reverse.mp hx))
    (by decide) (by decide) (by decide)

/-! ## Claim C5 -/

/-- C5: any input whose base64 decoding is shorter than the 16-byte IV makes
decrypt fail with the malformed error; decrypt is a total function, so no
panic or exception can occur. -/
theorem decrypt_short_blob_malformed (dec : String → List Nat → List Nat)
    (defaultKey key : String) (blob : List Nat)
    (h : (base64decode blob).length < 16) :
    decrypt dec defaultKey key blob = Except.error DecryptError.malformed := by
  simp only [decrypt]
  rw [if_pos h]

/-- Witness for C5: the empty blob decodes to zero bytes and is rejected as
malformed. -/
theorem decrypt_short_blob_malformed_witness :
    decrypt revCipher "dk" "" [] = Except.error DecryptError.malformed :=
  decrypt_short_blob_malformed revCipher "dk" "" [] (by decide)

/-! ## Claim C6 -/

/-- C6: the encrypt output is a base64 blob that decodes to the 16-byte IV
followed by the CBC ciphertext, and the decoded blob is at least 16 bytes
longer than the plaintext (the ciphertext is never shorter than the
plaintext, and the IV adds 16 bytes). -/
theorem encrypt_blob_format
    (enc : String → List Nat → List Nat) (defaultKey key : String)
    (iv pt : List Nat)
    (hElen : ∀ k b, b.length = 16 → (enc k b).length = 16)
    (hEbytes : ∀ k b, (∀ x ∈ b, x < 256) → ∀ x ∈ enc k b, x < 256)
    (hiv : iv.length = 16) (hivb : ∀ x ∈ iv, x < 256)
    (hpt : ∀ x ∈ pt, x < 256) :
    base64decode (encrypt enc defaultKey key iv pt) =
      iv ++ cipherTextOf enc defaultKey key iv pt ∧
    pt.length + 16 ≤ (base64decode (encrypt enc defaultKey key iv pt)).length := by
  have hpadb : ∀ x ∈ pkcs7pad pt, x < 256 := by
    intro x hx
    simp only [pkcs7pad, List.mem_append] at hx
    rcases hx with hx | hx
    · exact hpt x hx
    · have := List.eq_of_mem_replicate hx
      omega
  have hpadd : (pkcs7pad pt).length % 16 = 0 := by
    simp only [pkcs7pad, List.length_append, List.length_replicate]
    omega
  have hblocks16 := toBlocks_length_blocks (pkcs7pad pt) hpadd
  have hblocksb : ∀ b ∈ toBlocks (pkcs7pad pt), ∀ x ∈ b, x < 256 :=
    fun b hb x hx => hpadb x (toBlocks_subset (pkcs7pad pt) b hb x hx)
  have hctb : ∀ x ∈ cipherTextOf enc defaultKey key iv pt, x < 256 := by
    intro x hx
    simp only [cipherTextOf, List.mem_flatten] at hx
    obtain ⟨c, hc, hxc⟩ := hx
    exact cbcEncBlocks_bytes (enc (actualKeyOf defaultKey key))
      (hEbytes (actualKeyOf defaultKey key)) (toBlocks (pkcs7pad pt)) iv
      hivb hblocksb c hc x hxc
  have hblobb : ∀ x ∈ iv ++ cipherTextOf enc defaultKey key iv pt, x < 256 := by
    intro x hx
    rcases List.mem_append.mp hx with hx | hx
    · exact hivb x hx
    · exact hctb x hx
  have hdecode : base64decode (encrypt enc defaultKey key iv pt) =
      iv ++ cipherTextOf enc defaultKey key iv pt :=
    base64_roundtrip _ hblobb
  have henc16 : ∀ c ∈ cbcEncBlocks (enc (actualKeyOf defaultKey key)) iv
      (toBlocks (pkcs7pad pt)), c.length = 16 :=
    cbcEncBlocks_length _ (hElen _) _ iv hiv hblocks16
  refine ⟨hdecode, ?_⟩
  rw [hdecode]
  have h1 : (cipherTextOf enc defaultKey key iv pt).length =
      16 * (cbcEncBlocks (enc (actualKeyOf defaultKey key)) iv
        (toBlocks (pkcs7pad pt))).length := by
    simp only [cipherTextOf]
    exact flatten_length_all16 _ henc16
  have hcount := cbcEncBlocks_count (enc (actualKeyOf defaultKey key))
    (toBlocks (pkcs7pad pt)) iv
  have h2 : (pkcs7pad pt).length = 16 * (toBlocks (pkcs7pad pt)).length := by
    conv_lhs => rw [← toBlocks_flatten (pkcs7pad pt)]
    exact flatten_length_all16 _ hblocks16
  have hpadlen : pt.length ≤ (pkcs7pad pt).length := by
    simp only [pkcs7pad, List.length_append]
    omega
  simp only [List.length_append, hiv]
  omega

/-- The UTF-8 bytes of the eleven-character string hello world, the scenario
plaintext of the specification. -/
def helloWorldBytes : List Nat := [104, 101, 108, 108, 111, 32, 119, 111, 114, 108, 100]

/-- Witness for C6 at the spec scenario plaintext (11 bytes): the decoded
blob is the IV followed by the ciphertext and is at least 27 bytes long. -/
theorem encrypt_blob_format_witness :
    base64decode (encrypt revCipher "dk" "" (List.replicate 16 7) helloWorldBytes) =
      List.replicate 16 7 ++
        cipherTextOf revCipher "dk" "" (List.replicate 16 7) helloWorldBytes ∧
    helloWorldBytes.length + 16 ≤
      (base64decode (encrypt revCipher "dk" "" (List.replicate 16 7) helloWorldBytes)).length :=
  encrypt_blob_format revCipher "dk" "" (List.replicate 16 7) helloWorldBytes
    (fun _ b hb => by simpa [revCipher] using hb)
    (fun _ b hb x hx => hb x (List.mem_reverse.mp hx))
    (by decide) (by decide) (by decide)

end VMS
